import Mathlib

/-!
Verification of the adaptive image-compression pipeline (image-compressor repository).

This file gives a shallow embedding of the pure computational core of the
repository and proves or refutes the frozen claims about it:

* `PNGCompressor.analyzeImageType` (src/lib/compressors/png/png-compressor.ts):
  sampling loop, derived ratios, and the classification decision table;
* the binary-search quality convergence of `JPEGCompressor.compress`
  (src/unnamed/part_001) and `JPEGCompressorAdvanced.findOptimalQuality`
  (src/unnamed/part_002);
* the tile partition of `JPEGCompressorAdvanced.compressWithTiling` and
  `PNGCompressorAdvanced.compressWithSimpleTiling` (src/unnamed/part_000);
* the quantization passes `reduceColorsAdaptive`, `reduceColorsForGraphical`
  (png-compressor.ts) and `optimizeColorsForPNG` (src/unnamed/part_000);
* the size-check passthrough of the three compress entry points;
* the worker release bookkeeping of `compressWithPngEncoder` and
  `compressWithQualityPreservation` (src/unnamed/part_000);
* the fixed quality ladder of `PNGCompressorAdvanced.findOptimalQuality`.

Pixel buffers (`Uint8ClampedArray`, 4 bytes per pixel) are modelled either as a
flat byte function `ℕ → ℕ` (index `(y*width + x)*4 + channel`) or as a pixel
grid `ℕ → ℕ → Pix`, matching how the corresponding source loop addresses them.
Quality parameters are rationals; an encode callback is `ℚ → ℕ` giving the
byte size of the encoding at a quality (the blob itself is identified by the
quality that produced it, since the search only inspects sizes).
JavaScript numbers appearing here are integers or dyadic/decimal rationals,
so ℕ/ℚ arithmetic is exact.
-/

/-- RGBA pixel: the four consecutive bytes `[r, g, b, a]` that a
`Uint8ClampedArray` stores for one pixel at index `(y * width + x) * 4`. -/
structure Pix where
  r : ℕ
  g : ℕ
  b : ℕ
  a : ℕ
deriving DecidableEq, Repr

/-- Image-content categories returned by `PNGCompressor.analyzeImageType`. -/
inductive ImageKind where
  | lineart
  | photographic
  | graphical
  | mixed
deriving DecidableEq, Repr

/-- `Math.ceil(a / b)` on naturals (as used for tile counts and sampling
step counts; both sources call it on positive `b`). -/
def ceilDivNat (a b : ℕ) : ℕ := (a + b - 1) / b

/-! ### Content classifier: `PNGCompressor.analyzeImageType`
(src/lib/compressors/png/png-compressor.ts lines 61-165)

`data : ℕ → ℕ` is the flat RGBA byte array of the `sampleSize × sampleSize`
analysis canvas; `s` is `sampleSize`. -/

/-- Mutable counters of the sampling loop of `analyzeImageType`: the
`uniqueColors` set plus `edgeCount`, `transparentPixels`, `blackPixels`,
`whitePixels`, `grayPixels`, `coloredPixels`. -/
structure AnalyzeAcc where
  uniq : Finset (ℕ × ℕ × ℕ)
  edges : ℕ
  transparent : ℕ
  black : ℕ
  white : ℕ
  gray : ℕ
  colored : ℕ
deriving DecidableEq

/-- Initial counters (all zero, empty color set). -/
def initAcc : AnalyzeAcc := ⟨∅, 0, 0, 0, 0, 0, 0⟩

/-- The sampled grid positions `(x, y)` visited by
`for (y = 0; y < sampleSize; y += stride) for (x = 0; x < sampleSize; x += stride)`,
in loop order. -/
def samplePoints (s st : ℕ) : List (ℕ × ℕ) :=
  (List.range (ceilDivNat s st)).flatMap fun ky =>
    (List.range (ceilDivNat s st)).map fun kx => (kx * st, ky * st)

/-- One iteration of the sampling loop body of `analyzeImageType` at position
`pt = (x, y)`: transparency counting (with `continue` on fully transparent
pixels), black/white/gray/colored bucketing, reduced-precision unique-color
accumulation, and right/bottom neighbor edge detection. -/
def processPixel (data : ℕ → ℕ) (s st : ℕ) (acc : AnalyzeAcc) (pt : ℕ × ℕ) : AnalyzeAcc :=
  let x := pt.1
  let y := pt.2
  let i := (y * s + x) * 4
  let al := data (i + 3)
  let acc1 := if al < 255 then { acc with transparent := acc.transparent + 1 } else acc
  if al = 0 then acc1
  else
    let r := data i
    let g := data (i + 1)
    let b := data (i + 2)
    let acc2 :=
      if r < 30 ∧ g < 30 ∧ b < 30 then { acc1 with black := acc1.black + 1 }
      else if 225 < r ∧ 225 < g ∧ 225 < b then { acc1 with white := acc1.white + 1 }
      else if Nat.dist r g < 20 ∧ Nat.dist r b < 20 ∧ Nat.dist g b < 20 then
        { acc1 with gray := acc1.gray + 1 }
      else { acc1 with colored := acc1.colored + 1 }
    let acc3 := { acc2 with uniq := insert (r / 5, g / 5, b / 5) acc2.uniq }
    if x < s - st ∧ y < s - st then
      let ri := (y * s + (x + st)) * 4
      let bi := ((y + st) * s + x) * 4
      let d1 := Nat.dist (data i) (data ri) + Nat.dist (data (i + 1)) (data (ri + 1)) +
        Nat.dist (data (i + 2)) (data (ri + 2))
      let d2 := Nat.dist (data i) (data bi) + Nat.dist (data (i + 1)) (data (bi + 1)) +
        Nat.dist (data (i + 2)) (data (bi + 2))
      if 100 < d1 ∨ 100 < d2 then { acc3 with edges := acc3.edges + 1 } else acc3
    else acc3

/-- `stride = Math.max(1, Math.floor(sampleSize / 50))`. -/
def analyzeStride (s : ℕ) : ℕ := max 1 (s / 50)

/-- `totalSampledPixels = Math.floor(sampleSize / stride) ** 2`. -/
def totalSampled (s st : ℕ) : ℕ := (s / st) * (s / st)

/-- The counters after the whole sampling loop of `analyzeImageType`. -/
def analyzeAcc (data : ℕ → ℕ) (s st : ℕ) : AnalyzeAcc :=
  (samplePoints s st).foldl (processPixel data s st) initAcc

/-- `colorRatio = uniqueColors.size / totalSampledPixels`. -/
def colorRatioOf (data : ℕ → ℕ) (s : ℕ) : ℚ :=
  ((analyzeAcc data s (analyzeStride s)).uniq.card : ℚ) /
    (totalSampled s (analyzeStride s) : ℚ)

/-- `edgeRatio = edgeCount / totalSampledPixels`. -/
def edgeRatioOf (data : ℕ → ℕ) (s : ℕ) : ℚ :=
  ((analyzeAcc data s (analyzeStride s)).edges : ℚ) /
    (totalSampled s (analyzeStride s) : ℚ)

/-- `blackWhiteRatio = (blackPixels + whitePixels) / totalSampledPixels`. -/
def blackWhiteRatioOf (data : ℕ → ℕ) (s : ℕ) : ℚ :=
  (((analyzeAcc data s (analyzeStride s)).black +
      (analyzeAcc data s (analyzeStride s)).white : ℕ) : ℚ) /
    (totalSampled s (analyzeStride s) : ℚ)

/-- `grayRatio = grayPixels / totalSampledPixels`. -/
def grayRatioOf (data : ℕ → ℕ) (s : ℕ) : ℚ :=
  ((analyzeAcc data s (analyzeStride s)).gray : ℚ) /
    (totalSampled s (analyzeStride s) : ℚ)

/-- `hasTransparency = transparentPixels > 0`. -/
def hasTransparencyOf (data : ℕ → ℕ) (s : ℕ) : Bool :=
  decide (0 < (analyzeAcc data s (analyzeStride s)).transparent)

/-- `PNGCompressor.analyzeImageType`: run the sampling loop, derive the four
ratios and the transparency flag, and classify with the source's `if` chain
(png-compressor.ts lines 146-164). -/
def analyzeImageType (data : ℕ → ℕ) (s : ℕ) : ImageKind :=
  let st := analyzeStride s
  let acc := analyzeAcc data s st
  let total : ℚ := (totalSampled s st : ℚ)
  let cr : ℚ := (acc.uniq.card : ℚ) / total
  let er : ℚ := (acc.edges : ℚ) / total
  let bw : ℚ := ((acc.black + acc.white : ℕ) : ℚ) / total
  let gy : ℚ := (acc.gray : ℚ) / total
  let ht : Bool := decide (0 < acc.transparent)
  if (4/5 < bw ∨ 9/10 < bw + gy) ∧ 1/20 < er then .lineart
  else if 1/2 < cr ∧ er < 1/10 then .photographic
  else if cr < 1/5 ∨ 1/5 < er ∨ ht = true then .graphical
  else .mixed

/-- The decision table exactly as the specification states it, rules evaluated
in order: 1. lineart, 2. photographic, 3. graphical, 4. mixed.  (This follows
the spec's wording; it is to be compared with `analyzeImageType` above, which
is transcribed from the source.) -/
def classifyTable (colorR edgeR blackWhiteR grayR : ℚ) (hasTr : Bool) : ImageKind :=
  if (4/5 < blackWhiteR ∨ 9/10 < blackWhiteR + grayR) ∧ 1/20 < edgeR then .lineart
  else if 1/2 < colorR ∧ edgeR < 1/10 then .photographic
  else if colorR < 1/5 ∨ 1/5 < edgeR ∨ hasTr = true then .graphical
  else .mixed

/-! ### Quality search: `JPEGCompressor.compress` (src/unnamed/part_001,
lines 76-121) and `JPEGCompressorAdvanced.findOptimalQuality`
(src/unnamed/part_002, lines 624-721)

`enc q` is the byte size of the encoding produced at quality `q`
(`canvasToBlob(canvas, q).blob.size`); `target` is the byte target.
The simple compressor uses `MIN_QUALITY = 0.1`, `MAX_QUALITY = 0.95`,
`QUALITY_PRECISION = 0.01`; the advanced one uses the same constants plus
`maxIterations = ceil(log2((0.95-0.1)/0.01)) + 2 = 9` and early-stop
tolerance `0.03`. -/

/-- The `while (maxQuality - minQuality > QUALITY_PRECISION)` loop of
`JPEGCompressor.compress`: returns the recorded best quality (`none` when no
probe ever met the target) together with the number of executed iterations.
`fuel` bounds the recursion; 7 units suffice from the initial interval
`[0.1, 0.95]` because the interval width halves each iteration (proved
below as fuel-independence). -/
def jpegSearchAux (enc : ℚ → ℕ) (target : ℕ) (prec : ℚ) :
    ℕ → ℚ → ℚ → Option ℚ → Option ℚ × ℕ
  | 0, _, _, best => (best, 0)
  | fuel + 1, lo, hi, best =>
    if prec < hi - lo then
      let mid := (lo + hi) / 2
      let rest :=
        if enc mid ≤ target then jpegSearchAux enc target prec fuel mid hi (some mid)
        else jpegSearchAux enc target prec fuel lo mid best
      (rest.1, rest.2 + 1)
    else (best, 0)

/-- Quality selection of `JPEGCompressor.compress` after the loop
(part_001 lines 102-114): on an empty best, retry at `MIN_QUALITY`; when even
that exceeds the target the method throws
`"Could not compress image to target size"`, modelled as `none`. -/
def jpegCompressSearch (enc : ℚ → ℕ) (target : ℕ) : Option ℚ :=
  match (jpegSearchAux enc target (1/100) 7 (1/10) (19/20) none).1 with
  | some q => some q
  | none => if enc (1/10) ≤ target then some (1/10) else none

/-- The bounded binary-search loop of `JPEGCompressorAdvanced.findOptimalQuality`
(part_002 lines 651-679): guard `maxQuality - minQuality > 0.01 && iteration <
maxIterations` with `maxIterations = 9`, and early break once a best is
recorded and `maxQuality - minQuality < 0.03 || iteration >= maxIterations - 1`.
Returns the recorded best and the iteration count; `fuel = 9` runs it exactly. -/
def jpegAdvSearchAux (enc : ℚ → ℕ) (target : ℕ) :
    ℕ → ℕ → ℚ → ℚ → Option ℚ → Option ℚ × ℕ
  | 0, _, _, _, best => (best, 0)
  | fuel + 1, iter, lo, hi, best =>
    if 1/100 < hi - lo ∧ iter < 9 then
      let mid := (lo + hi) / 2
      if enc mid ≤ target then
        if hi - mid < 3/100 ∨ 8 ≤ iter + 1 then (some mid, 1)
        else
          let rest := jpegAdvSearchAux enc target fuel (iter + 1) mid hi (some mid)
          (rest.1, rest.2 + 1)
      else
        if best.isSome ∧ (mid - lo < 3/100 ∨ 8 ≤ iter + 1) then (best, 1)
        else
          let rest := jpegAdvSearchAux enc target fuel (iter + 1) lo mid best
          (rest.1, rest.2 + 1)
    else (best, 0)

/-- Outcome of `JPEGCompressorAdvanced.findOptimalQuality`: a blob encoded by
`canvasToBlob` at some quality, or the result of the worker-based progressive
JPEG attempt. -/
inductive JpegAdvResult where
  | atQuality (q : ℚ) : JpegAdvResult
  | progressive : JpegAdvResult
deriving DecidableEq, Repr

/-- `JPEGCompressorAdvanced.findOptimalQuality` (part_002 lines 624-721):
initial max-quality check, the bounded binary search, the minimum-quality
retry, then the progressive-JPEG attempt; when that attempt throws
(`progressiveFails = true`) the minimum-quality result is returned even though
it exceeds the target. -/
def jpegAdvFindOptimalQuality (enc : ℚ → ℕ) (target : ℕ) (progressiveFails : Bool) :
    JpegAdvResult :=
  if enc (19/20) ≤ target then .atQuality (19/20)
  else
    match (jpegAdvSearchAux enc target 9 0 (1/10) (19/20) none).1 with
    | some q => .atQuality q
    | none =>
      if enc (1/10) ≤ target then .atQuality (1/10)
      else if progressiveFails then .atQuality (1/10)
      else .progressive

/-- Encode function for the counterexample to the unrestricted quality-search
claim: a single isolated quality `0.2` meets the target but no binary-search
probe, and neither endpoint, does (the size function is not monotone). -/
def encBad : ℚ → ℕ := fun q => if q = 1/5 then 0 else 1

/-- A weakly monotone encode function used to witness the amended
quality-search claim: size 0 up to quality `0.5`, size 5 above. -/
def encMonoW : ℚ → ℕ := fun q => if q ≤ 1/2 then 0 else 5

/-! ### Tile partition: `JPEGCompressorAdvanced.compressWithTiling`
(part_002 lines 225-313) and `PNGCompressorAdvanced.compressWithSimpleTiling`
(part_000 lines 750-816)

Both sites compute `tilesX = Math.ceil(width / T)`, `tilesY = Math.ceil(height / T)`
and give tile `(tx, ty)` origin `(tx*T, ty*T)` and size
`(Math.min(T, width - tx*T), Math.min(T, height - ty*T))`. -/

/-- A tile rectangle: origin and size. -/
structure Rect where
  x : ℕ
  y : ℕ
  w : ℕ
  h : ℕ
deriving DecidableEq, Repr

/-- The rectangle of tile `(tx, ty)` in a `w × h` image with tile edge `T`. -/
def tileRect (w h T tx ty : ℕ) : Rect :=
  ⟨tx * T, ty * T, min T (w - tx * T), min T (h - ty * T)⟩

/-- Whether pixel `(px, py)` lies in rectangle `r`. -/
def inRect (r : Rect) (px py : ℕ) : Bool :=
  decide (r.x ≤ px ∧ px < r.x + r.w ∧ r.y ≤ py ∧ py < r.y + r.h)

/-- All tile indices `(tx, ty)` of the partition, in row-major loop order. -/
def tileIndices (w h T : ℕ) : List (ℕ × ℕ) :=
  (List.range (ceilDivNat h T)).flatMap fun ty =>
    (List.range (ceilDivNat w T)).map fun tx => (tx, ty)

/-- A tile extracted by `getImageData`: its rectangle and its own copy of the
pixel data, addressed by local coordinates. -/
structure TileData (α : Type) where
  rect : Rect
  dat : ℕ → ℕ → α

/-- `getImageData(r.x, r.y, r.w, r.h)`: copy the region out of the buffer. -/
def extractTile {α : Type} (buf : ℕ → ℕ → α) (r : Rect) : TileData α :=
  ⟨r, fun i j => buf (r.x + i) (r.y + j)⟩

/-- `putImageData(tile, r.x, r.y)`: write the tile back over its region. -/
def writeTile {α : Type} (t : TileData α) (buf : ℕ → ℕ → α) : ℕ → ℕ → α :=
  fun px py =>
    if inRect t.rect px py then t.dat (px - t.rect.x) (py - t.rect.y) else buf px py

/-- Write a list of tiles into a buffer, in list order. -/
def reassemble {α : Type} (ts : List (TileData α)) (init : ℕ → ℕ → α) : ℕ → ℕ → α :=
  ts.foldl (fun b t => writeTile t b) init

/-- The full partition of a buffer into its tiles (each tile carrying the
untouched pixel data of its region, as in the identity-transform scenario). -/
def tilePartition {α : Type} (buf : ℕ → ℕ → α) (w h T : ℕ) : List (TileData α) :=
  (tileIndices w h T).map fun p => extractTile buf (tileRect w h T p.1 p.2)

/-- Concrete 3×3 buffer used to witness the tiling theorem. -/
def orig3 : ℕ → ℕ → ℕ := fun px py => px + 3 * py

/-! ### Adaptive quantization: `PNGCompressor.reduceColorsAdaptive`
(png-compressor.ts lines 599-665)

The buffer is modelled as a pixel grid `ℕ → ℕ → Pix`; the function returns the
grid after the pass (positions outside `w × h` are untouched, matching the
loop bounds). The edge map is computed from the original data, exactly as in
the source where the first loop finishes before the second mutates pixels. -/

/-- Summed channel difference `|Δr| + |Δg| + |Δb|` between two pixels. -/
def sumDiff (p q : Pix) : ℕ :=
  Nat.dist p.r q.r + Nat.dist p.g q.g + Nat.dist p.b q.b

/-- The edge map of `reduceColorsAdaptive`: the detection loop runs
`y = 1 .. height-2`, `x = 1 .. width-2`, skips pixels with alpha `< 128`, and
marks an edge when the maximum of the four summed neighbor differences
exceeds 100.  All other positions keep the map's initial value 0 (`false`). -/
def adaptiveEdgeMap (data : ℕ → ℕ → Pix) (w h x y : ℕ) : Bool :=
  if 1 ≤ x ∧ x + 1 < w ∧ 1 ≤ y ∧ y + 1 < h then
    if (data x y).a < 128 then false
    else
      let l := sumDiff (data x y) (data (x - 1) y)
      let r := sumDiff (data x y) (data (x + 1) y)
      let t := sumDiff (data x y) (data x (y - 1))
      let b := sumDiff (data x y) (data x (y + 1))
      decide (100 < max (max l r) (max t b))
  else false

/-- `PNGCompressor.reduceColorsAdaptive`: quantization pass over all pixels of
the `w × h` buffer — skip fully transparent pixels, quantize R,G,B with step 2
on edge pixels and 6 elsewhere, binarize alpha at 128. -/
def reduceColorsAdaptive (data : ℕ → ℕ → Pix) (w h : ℕ) : ℕ → ℕ → Pix :=
  fun x y =>
    if x < w ∧ y < h then
      let p := data x y
      if p.a = 0 then p
      else
        let q := if adaptiveEdgeMap data w h x y then 2 else 6
        ⟨p.r / q * q, p.g / q * q, p.b / q * q, if p.a < 128 then 0 else 255⟩
    else data x y

/-- Edge flag as the claim words it ("4-neighbor max channel delta exceeds
100" for every non-transparent pixel): the maximum summed channel difference
over the in-bounds 4-neighbors, with no interior or alpha restriction.
(This follows the claim's wording; it is to be compared with
`adaptiveEdgeMap`, which is transcribed from the source.) -/
def specEdgeFlag (data : ℕ → ℕ → Pix) (w h x y : ℕ) : Bool :=
  let ds : List ℕ :=
    (if 1 ≤ x then [sumDiff (data x y) (data (x - 1) y)] else []) ++
    (if x + 1 < w then [sumDiff (data x y) (data (x + 1) y)] else []) ++
    (if 1 ≤ y then [sumDiff (data x y) (data x (y - 1))] else []) ++
    (if y + 1 < h then [sumDiff (data x y) (data x (y + 1))] else [])
  decide (100 < ds.foldr max 0)

/-- Counterexample buffer for the adaptive-quantization claim: a 2×1 image,
white pixel at `(0,0)` next to a black pixel at `(1,0)`, both fully opaque. -/
def dataBorder : ℕ → ℕ → Pix :=
  fun x _ => if x = 0 then ⟨255, 255, 255, 255⟩ else ⟨0, 0, 0, 255⟩

/-- Witness buffer for the amended adaptive-quantization claim: 3×3, white
center pixel at `(1,1)` surrounded by black, all fully opaque. -/
def dataCenter : ℕ → ℕ → Pix :=
  fun x y => if x = 1 ∧ y = 1 then ⟨255, 255, 255, 255⟩ else ⟨0, 0, 0, 255⟩

/-! ### Size-check passthrough (claim C7)

`JPEGCompressor.compress` (part_001 lines 36-44), `PNGCompressor.compress`
(png-compressor.ts lines 28-33) and `PNGCompressorAdvanced.compress`
(part_000 lines 87-113).  A file is any `F` with a size function; the
passthrough outcome carries the original file object and quality 1.0. -/

/-- Outcome of the entry checks of the two simple compressors. -/
inductive SimpleCompressOutcome (F : Type) where
  | passthrough (blob : F) (quality : ℚ) : SimpleCompressOutcome F
  | compressPath : SimpleCompressOutcome F
deriving DecidableEq

/-- `JPEGCompressor.compress` entry: `TARGET_SIZE = 100 * 1024`; a file at or
under it is returned as is with quality 1.0. -/
def jpegSimpleCompressEntry {F : Type} (size : F → ℕ) (file : F) : SimpleCompressOutcome F :=
  if size file ≤ 102400 then .passthrough file 1 else .compressPath

/-- `PNGCompressor.compress` entry: `TARGET_SIZE = 200 * 1024`; a file at or
under it is returned as is with quality 1.0, before any analysis. -/
def pngSimpleCompressEntry {F : Type} (size : F → ℕ) (file : F) : SimpleCompressOutcome F :=
  if size file ≤ 204800 then .passthrough file 1 else .compressPath

/-- Outcome of the entry checks of `PNGCompressorAdvanced.compress`. -/
inductive AdvCompressOutcome (F : Type) where
  | errTooLarge : AdvCompressOutcome F
  | passthrough (blob : F) (quality : ℚ) : AdvCompressOutcome F
  | strategyPath : AdvCompressOutcome F
deriving DecidableEq

/-- `targetSize = options?.targetSize || TARGET_SIZE_BASE` with
`TARGET_SIZE_BASE = 200 * 1024` (JavaScript `||`: the option value 0 is falsy
and falls back to the default). -/
def pngAdvTargetSize (optTarget : Option ℕ) : ℕ :=
  match optTarget with
  | some t => if t = 0 then 204800 else t
  | none => 204800

/-- `PNGCompressorAdvanced.compress` entry (part_000 lines 87-113): the 50MB
`MAX_SIZE` check throws first; then a file at or under `targetSize` is
returned as is with quality 1.0. -/
def pngAdvancedCompressEntry {F : Type} (size : F → ℕ) (file : F)
    (optTarget : Option ℕ) : AdvCompressOutcome F :=
  if 52428800 < size file then .errTooLarge
  else if size file ≤ pngAdvTargetSize optTarget then .passthrough file 1
  else .strategyPath

/-! ### Worker release bookkeeping (claim C8)

`PNGCompressorAdvanced.compressWithPngEncoder` (part_000 lines 367-435) and
`compressWithQualityPreservation` (part_000 lines 665-745).  Each terminating
control path of the dispatched task is enumerated, and for each we record the
cleanup actions the source performs on that path.  `releaseWorker`
(part_000 lines 617-623) clears the pooled worker's busy flag. -/

/-- Cleanup actions performed on one exit path. -/
structure ExitActions where
  released : Bool
  removedHandler : Bool
  clearedTimeout : Bool
deriving DecidableEq, Repr

/-- Exit paths of `compressWithPngEncoder`. -/
inductive PngEncExit where
  | resultMsg
  | errorMsg
  | timedOut
  | blobNull
  | postMessageThrew
  | setupThrew
deriving DecidableEq, Repr

/-- Cleanup performed by `compressWithPngEncoder` on each exit path, read off
the source:
* `"result"` message: `removeEventListener` + `releaseWorker`, resolve;
* `"error"` message: `removeEventListener` + `releaseWorker`, reject;
* 10s timeout: `removeEventListener` + `releaseWorker`, reject;
* `canvas.toBlob` delivers `null`: `clearTimeout` + reject only;
* `arrayBuffer`/`postMessage` throws: `clearTimeout` + `removeEventListener`
  + `releaseWorker`, reject;
* the outer promise body throws: `releaseWorker`, reject. -/
def pngEncoderExitActions : PngEncExit → ExitActions
  | .resultMsg => ⟨true, true, false⟩
  | .errorMsg => ⟨true, true, false⟩
  | .timedOut => ⟨true, true, false⟩
  | .blobNull => ⟨false, false, true⟩
  | .postMessageThrew => ⟨true, true, true⟩
  | .setupThrew => ⟨true, false, false⟩

/-- Exit paths of `compressWithQualityPreservation` (no timeout exists there). -/
inductive QualityPresExit where
  | resultMsg
  | errorMsg
  | blobNull
deriving DecidableEq, Repr

/-- Cleanup performed by `compressWithQualityPreservation` on each exit path:
result and error messages remove the handler and release the worker; a `null`
blob from `canvas.toBlob` only rejects. -/
def qualityPresExitActions : QualityPresExit → ExitActions
  | .resultMsg => ⟨true, true, false⟩
  | .errorMsg => ⟨true, true, false⟩
  | .blobNull => ⟨false, false, false⟩

/-! ### Floor-step quantization passes (claim C9)

`PNGCompressor.reduceColorsForGraphical` (png-compressor.ts lines 577-594) and
`PNGCompressorAdvanced.optimizeColorsForPNG` (part_000 lines 338-362), on a
pixel list (the flat array grouped in 4-byte pixels). -/

/-- Per-pixel body of `reduceColorsForGraphical`: skip fully transparent
pixels; floor-quantize R,G,B to multiples of 8; binarize alpha at 128. -/
def quantizeGraphicalPix (p : Pix) : Pix :=
  if p.a = 0 then p
  else ⟨p.r / 8 * 8, p.g / 8 * 8, p.b / 8 * 8, if p.a < 128 then 0 else 255⟩

/-- `PNGCompressor.reduceColorsForGraphical` over the whole pixel array. -/
def reduceColorsForGraphical (l : List Pix) : List Pix :=
  l.map quantizeGraphicalPix

/-- `colorPrecision = width * height > 1000000 ? 16 : 8`. -/
def pngColorPrecision (w h : ℕ) : ℕ := if 1000000 < w * h then 16 else 8

/-- Per-pixel body of `optimizeColorsForPNG`: alpha `< 128` zeroes the pixel
entirely (RGB and alpha); otherwise alpha becomes 255 and R,G,B are
floor-quantized to multiples of `colorPrecision`. -/
def optimizePixPNG (prec : ℕ) (p : Pix) : Pix :=
  if p.a < 128 then ⟨0, 0, 0, 0⟩
  else ⟨p.r / prec * prec, p.g / prec * prec, p.b / prec * prec, 255⟩

/-- `PNGCompressorAdvanced.optimizeColorsForPNG` over the whole pixel array. -/
def optimizeColorsForPNG (l : List Pix) (w h : ℕ) : List Pix :=
  l.map (optimizePixPNG (pngColorPrecision w h))

/-! ### PNG advanced quality ladder (claim C10)

`PNGCompressorAdvanced.findOptimalQuality` (part_000 lines 440-455). -/

/-- `const qualityLevels = [0.8, 0.6, 0.4, 0.2]`. -/
def pngQualityLevels : List ℚ := [4/5, 3/5, 2/5, 1/5]

/-- The `for (const quality of qualityLevels)` loop of
`PNGCompressorAdvanced.findOptimalQuality`: return at the first level whose
blob meets the target, else fall through to quality 0.1 unconditionally. -/
def pngFoqLoop (enc : ℚ → ℕ) (target : ℕ) : List ℚ → ℚ
  | [] => 1/10
  | q :: rest => if enc q ≤ target then q else pngFoqLoop enc target rest

/-- `PNGCompressorAdvanced.findOptimalQuality`: probe the fixed quality levels
in order and return the first whose blob meets the target; otherwise fall back
to quality 0.1 unconditionally. -/
def pngAdvFindOptimalQuality (enc : ℚ → ℕ) (target : ℕ) : ℚ :=
  pngFoqLoop enc target pngQualityLevels

/-! ## Theorems -/

/-- Claim C2 (confirmed).  Classifier decision table: for every sampled pixel
buffer, with the derived ratios `colorRatio`, `edgeRatio`, `blackWhiteRatio`,
`grayRatio` and the transparency flag, the classification result of
`analyzeImageType` is exactly the first matching rule of the spec's decision
table evaluated in order: lineart, then photographic, then graphical, else
mixed. -/
theorem analyzeImageType_eq_classifyTable (data : ℕ → ℕ) (s : ℕ) :
    analyzeImageType data s =
      classifyTable (colorRatioOf data s) (edgeRatioOf data s)
        (blackWhiteRatioOf data s) (grayRatioOf data s) (hasTransparencyOf data s) := rfl

/-- Claim C8 (code_bug).  Worker release: on the `"result"`, `"error"`,
timeout, post-message-failure and setup-failure exit paths the acquired pooled
worker is released, but on the failed-blob-conversion path (`canvas.toBlob`
delivering `null`) both `compressWithPngEncoder` and
`compressWithQualityPreservation` reject without calling `releaseWorker`,
leaving the worker's busy flag set — contradicting the spec's "released on
every exit path, never leaked". -/
theorem worker_release_blobNull_leak :
    (pngEncoderExitActions .resultMsg).released = true ∧
    (pngEncoderExitActions .errorMsg).released = true ∧
    (pngEncoderExitActions .timedOut).released = true ∧
    (pngEncoderExitActions .postMessageThrew).released = true ∧
    (pngEncoderExitActions .setupThrew).released = true ∧
    (pngEncoderExitActions .blobNull).released = false ∧
    (qualityPresExitActions .resultMsg).released = true ∧
    (qualityPresExitActions .errorMsg).released = true ∧
    (qualityPresExitActions .blobNull).released = false := by
  decide

/-- The per-pixel body of `reduceColorsForGraphical` is idempotent. -/
lemma quantizeGraphicalPix_idem (p : Pix) :
    quantizeGraphicalPix (quantizeGraphicalPix p) = quantizeGraphicalPix p := by
  rcases p with ⟨r, g, b, a⟩
  have h8 : ∀ n : ℕ, n / 8 * 8 / 8 * 8 = n / 8 * 8 := fun n => by
    rw [Nat.mul_div_cancel _ (by norm_num : 0 < 8)]
  by_cases h0 : a = 0
  · simp [quantizeGraphicalPix, h0]
  · by_cases h128 : a < 128
    · simp [quantizeGraphicalPix, h0, h128]
    · simp [quantizeGraphicalPix, h0, h128, h8]

/-- The per-pixel body of `optimizeColorsForPNG` is idempotent for any
positive color precision. -/
lemma optimizePixPNG_idem (prec : ℕ) (hp : 0 < prec) (p : Pix) :
    optimizePixPNG prec (optimizePixPNG prec p) = optimizePixPNG prec p := by
  rcases p with ⟨r, g, b, a⟩
  have hq : ∀ n : ℕ, n / prec * prec / prec * prec = n / prec * prec := fun n => by
    rw [Nat.mul_div_cancel _ hp]
  by_cases h128 : a < 128
  · simp [optimizePixPNG, h128]
  · simp [optimizePixPNG, h128, hq]

/-- Claim C9 (confirmed).  Idempotence of floor-step quantization with alpha
binarization: applying `reduceColorsForGraphical` twice yields exactly the
same pixel array as applying it once, and likewise for `optimizeColorsForPNG`
(which additionally zeroes the RGB of pixels it makes fully transparent). -/
theorem quantization_passes_idempotent (l : List Pix) (w h : ℕ) :
    reduceColorsForGraphical (reduceColorsForGraphical l) = reduceColorsForGraphical l ∧
    optimizeColorsForPNG (optimizeColorsForPNG l w h) w h = optimizeColorsForPNG l w h := by
  have hp : 0 < pngColorPrecision w h := by
    unfold pngColorPrecision
    split <;> norm_num
  constructor
  · unfold reduceColorsForGraphical
    rw [List.map_map]
    exact List.map_congr_left fun p _ => quantizeGraphicalPix_idem p
  · unfold optimizeColorsForPNG
    rw [List.map_map]
    exact List.map_congr_left fun p _ => optimizePixPNG_idem _ hp p

/-- Claim C7 (corrected).  SizeCheck passthrough: a file whose byte size meets
the target is returned unchanged (the original file object) at quality 1.0 by
the simple JPEG compressor, the simple PNG compressor, and — provided it also
passes the 50MB `MAX_SIZE` pre-check that the advanced PNG compressor runs
first — by the advanced PNG compressor. -/
theorem sizecheck_passthrough {F : Type} (size : F → ℕ) (file : F) (optTarget : Option ℕ) :
    (size file ≤ 102400 → jpegSimpleCompressEntry size file = .passthrough file 1) ∧
    (size file ≤ 204800 → pngSimpleCompressEntry size file = .passthrough file 1) ∧
    (size file ≤ pngAdvTargetSize optTarget → size file ≤ 52428800 →
      pngAdvancedCompressEntry size file optTarget = .passthrough file 1) := by
  refine ⟨fun h => ?_, fun h => ?_, fun h hmax => ?_⟩
  · rw [jpegSimpleCompressEntry, if_pos h]
  · rw [pngSimpleCompressEntry, if_pos h]
  · rw [pngAdvancedCompressEntry, if_neg (by omega), if_pos h]

/-- Counterexample to claim C7 as stated: a 52428801-byte PNG file with a
caller-supplied target of 104857600 bytes already meets the target, yet
`PNGCompressorAdvanced.compress` throws the 50MB size-limit error instead of
returning the file unchanged. -/
theorem sizecheck_passthrough_counterexample :
    (52428801 : ℕ) ≤ pngAdvTargetSize (some 104857600) ∧
    pngAdvancedCompressEntry (fun n => n) (52428801 : ℕ) (some 104857600) =
      .errTooLarge ∧
    ∀ q : ℚ, pngAdvancedCompressEntry (fun n => n) (52428801 : ℕ) (some 104857600) ≠
      .passthrough 52428801 q := by
  refine ⟨by norm_num [pngAdvTargetSize], ?_, ?_⟩
  · rw [pngAdvancedCompressEntry, if_pos (by norm_num)]
  · intro q h
    rw [pngAdvancedCompressEntry, if_pos (by norm_num)] at h
    exact AdvCompressOutcome.noConfusion h

/-- Witness for the amended claim C7 at concrete inputs: a 100-byte file is
passed through unchanged by all three entry points. -/
theorem sizecheck_passthrough_witness :
    jpegSimpleCompressEntry (fun n => n) (100 : ℕ) = .passthrough 100 1 ∧
    pngSimpleCompressEntry (fun n => n) (100 : ℕ) = .passthrough 100 1 ∧
    pngAdvancedCompressEntry (fun n => n) (100 : ℕ) none = .passthrough 100 1 :=
  ⟨(sizecheck_passthrough (fun n => n) 100 none).1 (by norm_num),
   (sizecheck_passthrough (fun n => n) 100 none).2.1 (by norm_num),
   (sizecheck_passthrough (fun n => n) 100 none).2.2 (by norm_num [pngAdvTargetSize])
     (by norm_num)⟩

/-- Claim C10 (confirmed).  The advanced PNG compressor's quality convergence
is a fixed descending ladder: `pngAdvFindOptimalQuality` returns one of
`{0.8, 0.6, 0.4, 0.2, 0.1}`; when the result is not `0.1` it is the first
probed level whose encoding meets the target (every higher level fails) and
its encoding meets the target; when the result is `0.1` every probed level
failed. -/
theorem pngAdvFindOptimalQuality_ladder (enc : ℚ → ℕ) (target : ℕ) :
    pngAdvFindOptimalQuality enc target ∈ [(4:ℚ)/5, 3/5, 2/5, 1/5, 1/10] ∧
    (pngAdvFindOptimalQuality enc target ≠ 1/10 →
      enc (pngAdvFindOptimalQuality enc target) ≤ target ∧
      ∀ q ∈ pngQualityLevels, pngAdvFindOptimalQuality enc target < q → target < enc q) ∧
    (pngAdvFindOptimalQuality enc target = 1/10 →
      ∀ q ∈ pngQualityLevels, target < enc q) := by
  have hun : pngAdvFindOptimalQuality enc target =
      (if enc (4/5) ≤ target then 4/5 else if enc (3/5) ≤ target then 3/5
        else if enc (2/5) ≤ target then 2/5 else if enc (1/5) ≤ target then 1/5
        else (1/10 : ℚ)) := by
    simp only [pngAdvFindOptimalQuality, pngQualityLevels, pngFoqLoop]
  by_cases h1 : enc (4/5) ≤ target
  · rw [hun, if_pos h1]
    refine ⟨by norm_num, fun _ => ⟨h1, ?_⟩, by norm_num⟩
    intro q hq hlt
    fin_cases hq <;> first
      | omega
      | exact absurd hlt (by norm_num)
  · by_cases h2 : enc (3/5) ≤ target
    · rw [hun, if_neg h1, if_pos h2]
      refine ⟨by norm_num, fun _ => ⟨h2, ?_⟩, by norm_num⟩
      intro q hq hlt
      fin_cases hq <;> first
        | omega
        | exact absurd hlt (by norm_num)
    · by_cases h3 : enc (2/5) ≤ target
      · rw [hun, if_neg h1, if_neg h2, if_pos h3]
        refine ⟨by norm_num, fun _ => ⟨h3, ?_⟩, by norm_num⟩
        intro q hq hlt
        fin_cases hq <;> first
          | omega
          | exact absurd hlt (by norm_num)
      · by_cases h4 : enc (1/5) ≤ target
        · rw [hun, if_neg h1, if_neg h2, if_neg h3, if_pos h4]
          refine ⟨by norm_num, fun _ => ⟨h4, ?_⟩, by norm_num⟩
          intro q hq hlt
          fin_cases hq <;> first
            | omega
            | exact absurd hlt (by norm_num)
        · rw [hun, if_neg h1, if_neg h2, if_neg h3, if_neg h4]
          refine ⟨by norm_num, fun hne => absurd rfl hne, fun _ => ?_⟩
          intro q hq
          fin_cases hq <;> omega

/-- Witness for claim C10 at a concrete input: with an encoder whose output is
always 0 bytes and target 0, the ladder returns its first level 0.8 and that
encoding meets the target. -/
theorem pngAdvFindOptimalQuality_ladder_witness :
    pngAdvFindOptimalQuality (fun _ => 0) 0 = 4/5 ∧
    (fun _ => (0 : ℕ)) (pngAdvFindOptimalQuality (fun _ => 0) 0) ≤ 0 :=
  ⟨by simp [pngAdvFindOptimalQuality, pngQualityLevels, pngFoqLoop],
   ((pngAdvFindOptimalQuality_ladder (fun _ => 0) 0).2.1
      (by simp [pngAdvFindOptimalQuality, pngQualityLevels, pngFoqLoop]; norm_num)).1⟩

/-- Invariant of the simple binary-search loop: a recorded best quality was
always a probe whose encoding met the target. -/
lemma jpegSearchAux_fst_some (enc : ℚ → ℕ) (target : ℕ) (prec : ℚ) :
    ∀ (fuel : ℕ) (lo hi : ℚ) (best : Option ℚ),
      (∀ q, best = some q → enc q ≤ target) →
      ∀ q, (jpegSearchAux enc target prec fuel lo hi best).1 = some q → enc q ≤ target := by
  intro fuel
  induction fuel with
  | zero => intro lo hi best hb q hq; exact hb q hq
  | succ n ih =>
    intro lo hi best hb q hq
    simp only [jpegSearchAux] at hq
    split at hq
    · split at hq
      · rename_i hm
        refine ih _ _ _ (fun q' hq' => ?_) q hq
        cases hq'
        exact hm
      · exact ih _ _ _ hb q hq
    · exact hb q hq
  
/-- When no quality in the current interval meets the target, the loop records
no best probe (all probed midpoints lie inside the interval). -/
lemma jpegSearchAux_fst_none (enc : ℚ → ℕ) (target : ℕ) (prec : ℚ) :
    ∀ (fuel : ℕ) (lo hi : ℚ), lo ≤ hi →
      (∀ q, lo ≤ q → q ≤ hi → target < enc q) →
      (jpegSearchAux enc target prec fuel lo hi none).1 = none := by
  intro fuel
  induction fuel with
  | zero => intro lo hi _ _; rfl
  | succ n ih =>
    intro lo hi hle hall
    simp only [jpegSearchAux]
    split
    · have hmlo : lo ≤ (lo + hi) / 2 := by linarith
      have hmhi : (lo + hi) / 2 ≤ hi := by linarith
      rw [if_neg (not_le.mpr (hall _ hmlo hmhi))]
      exact ih lo ((lo + hi) / 2) hmlo fun q h1 h2 => hall q h1 (h2.trans hmhi)
    · rfl

/-- Fuel adequacy of the simple binary-search loop: once the interval width is
at most `prec * 2 ^ n`, `n` units of fuel already run the loop to its guard
exit, so extra fuel does not change the result (the width halves each
iteration). -/
lemma jpegSearchAux_fuel (enc : ℚ → ℕ) (target : ℕ) (prec : ℚ) :
    ∀ (n m : ℕ) (lo hi : ℚ) (best : Option ℚ), hi - lo ≤ prec * 2 ^ n →
      jpegSearchAux enc target prec (n + m) lo hi best =
        jpegSearchAux enc target prec n lo hi best := by
  intro n
  induction n with
  | zero =>
    intro m lo hi best hw
    have hw' : hi - lo ≤ prec := by simpa using hw
    cases m with
    | zero => rfl
    | succ k =>
      simp only [Nat.zero_add, jpegSearchAux, if_neg (not_lt.mpr hw')]
  | succ k ihn =>
    intro m lo hi best hw
    have heq : k + 1 + m = (k + m) + 1 := by omega
    rw [heq]
    have hw1 : hi - (lo + hi) / 2 ≤ prec * 2 ^ k := by
      rw [pow_succ] at hw; linarith
    have hw2 : (lo + hi) / 2 - lo ≤ prec * 2 ^ k := by
      rw [pow_succ] at hw; linarith
    simp only [jpegSearchAux]
    by_cases hc : prec < hi - lo
    · rw [if_pos hc, if_pos hc]
      by_cases hm : enc ((lo + hi) / 2) ≤ target
      · rw [if_pos hm, if_pos hm, ihn m _ _ _ hw1]
      · rw [if_neg hm, if_neg hm, ihn m _ _ _ hw2]
    · rw [if_neg hc, if_neg hc]

/-- Iteration bound of the simple binary-search loop: at most `n` iterations
run once the interval width is at most `prec * 2 ^ n`, for any fuel. -/
lemma jpegSearchAux_snd_le (enc : ℚ → ℕ) (target : ℕ) (prec : ℚ) :
    ∀ (n fuel : ℕ) (lo hi : ℚ) (best : Option ℚ), hi - lo ≤ prec * 2 ^ n →
      (jpegSearchAux enc target prec fuel lo hi best).2 ≤ n := by
  intro n
  induction n with
  | zero =>
    intro fuel lo hi best hw
    have hw' : hi - lo ≤ prec := by simpa using hw
    cases fuel with
    | zero => exact Nat.le_refl 0
    | succ k =>
      simp only [jpegSearchAux, if_neg (not_lt.mpr hw')]
      exact Nat.le_refl 0
  | succ k ihn =>
    intro fuel lo hi best hw
    have hw1 : hi - (lo + hi) / 2 ≤ prec * 2 ^ k := by
      rw [pow_succ] at hw; linarith
    have hw2 : (lo + hi) / 2 - lo ≤ prec * 2 ^ k := by
      rw [pow_succ] at hw; linarith
    cases fuel with
    | zero => exact Nat.zero_le _
    | succ f =>
      simp only [jpegSearchAux]
      split
      · dsimp only
        split
        · exact Nat.succ_le_succ (ihn f _ _ _ hw1)
        · exact Nat.succ_le_succ (ihn f _ _ _ hw2)
      · exact Nat.zero_le _

/-- Invariant of the advanced binary-search loop: a recorded best quality was
always a probe whose encoding met the target. -/
lemma jpegAdvSearchAux_fst_some (enc : ℚ → ℕ) (target : ℕ) :
    ∀ (fuel iter : ℕ) (lo hi : ℚ) (best : Option ℚ),
      (∀ q, best = some q → enc q ≤ target) →
      ∀ q, (jpegAdvSearchAux enc target fuel iter lo hi best).1 = some q →
        enc q ≤ target := by
  intro fuel
  induction fuel with
  | zero => intro iter lo hi best hb q hq; exact hb q hq
  | succ n ih =>
    intro iter lo hi best hb q hq
    simp only [jpegAdvSearchAux] at hq
    split at hq
    · split at hq
      · rename_i hm
        split at hq
        · dsimp only at hq
          cases hq
          exact hm
        · dsimp only at hq
          refine ih _ _ _ _ (fun q' hq' => ?_) q hq
          cases hq'
          exact hm
      · split at hq
        · dsimp only at hq
          exact hb q hq
        · dsimp only at hq
          exact ih _ _ _ _ hb q hq
    · exact hb q hq

/-- When no quality in the current interval meets the target, the advanced
loop records no best probe. -/
lemma jpegAdvSearchAux_fst_none (enc : ℚ → ℕ) (target : ℕ) :
    ∀ (fuel iter : ℕ) (lo hi : ℚ), lo ≤ hi →
      (∀ q, lo ≤ q → q ≤ hi → target < enc q) →
      (jpegAdvSearchAux enc target fuel iter lo hi none).1 = none := by
  intro fuel
  induction fuel with
  | zero => intro iter lo hi _ _; rfl
  | succ n ih =>
    intro iter lo hi hle hall
    simp only [jpegAdvSearchAux]
    split
    · have hmlo : lo ≤ (lo + hi) / 2 := by linarith
      have hmhi : (lo + hi) / 2 ≤ hi := by linarith
      rw [if_neg (not_le.mpr (hall _ hmlo hmhi))]
      rw [if_neg (by simp)]
      dsimp only
      exact ih _ lo ((lo + hi) / 2) hmlo fun q h1 h2 => hall q h1 (h2.trans hmhi)
    · rfl

/-- Fuel adequacy of the advanced loop: the `iteration < 9` guard stops it
after at most `9 - iter` more iterations, so any fuel covering that is
equivalent. -/
lemma jpegAdvSearchAux_fuel (enc : ℚ → ℕ) (target : ℕ) :
    ∀ (fuel m iter : ℕ) (lo hi : ℚ) (best : Option ℚ), 9 ≤ iter + fuel →
      jpegAdvSearchAux enc target (fuel + m) iter lo hi best =
        jpegAdvSearchAux enc target fuel iter lo hi best := by
  intro fuel
  induction fuel with
  | zero =>
    intro m iter lo hi best h9
    cases m with
    | zero => rfl
    | succ k =>
      have hng : ¬ ((1:ℚ)/100 < hi - lo ∧ iter < 9) := fun hc => absurd hc.2 (by omega)
      simp only [Nat.zero_add, jpegAdvSearchAux, if_neg hng]
  | succ f ihf =>
    intro m iter lo hi best h9
    have heq : f + 1 + m = (f + m) + 1 := by omega
    rw [heq]
    simp only [jpegAdvSearchAux]
    by_cases hc : 1/100 < hi - lo ∧ iter < 9
    · rw [if_pos hc, if_pos hc]
      by_cases hm : enc ((lo + hi) / 2) ≤ target
      · rw [if_pos hm, if_pos hm]
        by_cases hbk : hi - (lo + hi) / 2 < 3/100 ∨ 8 ≤ iter + 1
        · rw [if_pos hbk, if_pos hbk]
        · rw [if_neg hbk, if_neg hbk, ihf m _ _ _ _ (by omega)]
      · rw [if_neg hm, if_neg hm]
        by_cases hbk : best.isSome ∧ ((lo + hi) / 2 - lo < 3/100 ∨ 8 ≤ iter + 1)
        · rw [if_pos hbk, if_pos hbk]
        · rw [if_neg hbk, if_neg hbk, ihf m _ _ _ _ (by omega)]
    · rw [if_neg hc, if_neg hc]

/-- Iteration bound of the advanced loop: the `iteration < 9` guard caps the
number of executed iterations at `9 - iter`, for any fuel. -/
lemma jpegAdvSearchAux_snd_le (enc : ℚ → ℕ) (target : ℕ) :
    ∀ (fuel iter : ℕ) (lo hi : ℚ) (best : Option ℚ),
      (jpegAdvSearchAux enc target fuel iter lo hi best).2 ≤ 9 - iter := by
  intro fuel
  induction fuel with
  | zero => intro iter lo hi best; exact Nat.zero_le _
  | succ f ihf =>
    intro iter lo hi best
    simp only [jpegAdvSearchAux]
    split
    · rename_i hc
      have hi9 : iter < 9 := hc.2
      split
      · split
        · dsimp only
          omega
        · dsimp only
          have := ihf (iter + 1) ((lo + hi) / 2) hi (some ((lo + hi) / 2))
          omega
      · split
        · dsimp only
          omega
        · dsimp only
          have := ihf (iter + 1) lo ((lo + hi) / 2) best
          omega
    · exact Nat.zero_le _

/-- One iteration of the simple loop whose probe meets the target. -/
lemma jpegSearchAux_fst_step_pos (enc : ℚ → ℕ) (target : ℕ) (prec : ℚ) (fuel : ℕ)
    (lo hi mid : ℚ) (best : Option ℚ) (hmid : (lo + hi) / 2 = mid)
    (h : prec < hi - lo) (hm : enc mid ≤ target) :
    (jpegSearchAux enc target prec (fuel + 1) lo hi best).1 =
      (jpegSearchAux enc target prec fuel mid hi (some mid)).1 := by
  subst hmid
  simp only [jpegSearchAux, if_pos h, if_pos hm]

/-- One iteration of the simple loop whose probe misses the target. -/
lemma jpegSearchAux_fst_step_neg (enc : ℚ → ℕ) (target : ℕ) (prec : ℚ) (fuel : ℕ)
    (lo hi mid : ℚ) (best : Option ℚ) (hmid : (lo + hi) / 2 = mid)
    (h : prec < hi - lo) (hm : ¬ enc mid ≤ target) :
    (jpegSearchAux enc target prec (fuel + 1) lo hi best).1 =
      (jpegSearchAux enc target prec fuel lo mid best).1 := by
  subst hmid
  simp only [jpegSearchAux, if_pos h, if_neg hm]

/-- One iteration of the advanced loop with no recorded best whose probe
misses the target (so neither the break nor the best is touched). -/
lemma jpegAdvSearchAux_fst_step_none_neg (enc : ℚ → ℕ) (target : ℕ) (fuel iter : ℕ)
    (lo hi mid : ℚ) (hmid : (lo + hi) / 2 = mid) (h1 : (1:ℚ)/100 < hi - lo)
    (h2 : iter < 9) (hm : ¬ enc mid ≤ target) :
    (jpegAdvSearchAux enc target (fuel + 1) iter lo hi none).1 =
      (jpegAdvSearchAux enc target fuel (iter + 1) lo mid none).1 := by
  subst hmid
  simp only [jpegAdvSearchAux, if_pos (And.intro h1 h2), if_neg hm,
    Option.isSome_none, Bool.false_eq_true, false_and, if_false]

/-- The advanced loop exits and returns the recorded best once its guard
fails. -/
lemma jpegAdvSearchAux_fst_stop (enc : ℚ → ℕ) (target : ℕ) (fuel iter : ℕ)
    (lo hi : ℚ) (best : Option ℚ) (h : ¬ ((1:ℚ)/100 < hi - lo ∧ iter < 9)) :
    (jpegAdvSearchAux enc target (fuel + 1) iter lo hi best).1 = best := by
  simp only [jpegAdvSearchAux, if_neg h]

/-- Claim C4 (confirmed).  Iteration bound and termination of the quality
search: `(0.95 - 0.1) / 0.01 = 85` and `ceil(log2 85) = 7`; for every encode
function and target, the simple loop from `[0.1, 0.95]` executes at most
`ceil(log2 85)` iterations and the advanced loop at most `ceil(log2 85) + 2`;
and both loops have genuinely terminated within their allotted fuel — extra
fuel never changes the outcome, because the interval width halves on every
iteration (`jpegSearchAux_fuel`). -/
theorem quality_search_iteration_bound (enc : ℚ → ℕ) (target : ℕ) :
    ((19:ℚ)/20 - 1/10) / (1/100) = 85 ∧
    Nat.clog 2 85 = 7 ∧
    (jpegSearchAux enc target (1/100) 7 (1/10) (19/20) none).2 ≤ Nat.clog 2 85 ∧
    (jpegAdvSearchAux enc target 9 0 (1/10) (19/20) none).2 ≤ Nat.clog 2 85 + 2 ∧
    (∀ m, jpegSearchAux enc target (1/100) (7 + m) (1/10) (19/20) none =
      jpegSearchAux enc target (1/100) 7 (1/10) (19/20) none) ∧
    (∀ m, jpegAdvSearchAux enc target (9 + m) 0 (1/10) (19/20) none =
      jpegAdvSearchAux enc target 9 0 (1/10) (19/20) none) := by
  have hclog : Nat.clog 2 85 = 7 := by
    have h1 : Nat.clog 2 85 ≤ 7 := (Nat.le_pow_iff_clog_le (by norm_num)).mp (by norm_num)
    have h2 : 6 < Nat.clog 2 85 := (Nat.pow_lt_iff_lt_clog (by norm_num)).mp (by norm_num)
    omega
  have hwidth : (19:ℚ)/20 - 1/10 ≤ (1/100) * 2 ^ 7 := by norm_num
  refine ⟨by norm_num, hclog, ?_, ?_, ?_, ?_⟩
  · rw [hclog]
    exact jpegSearchAux_snd_le enc target (1/100) 7 7 _ _ _ hwidth
  · rw [hclog]
    have := jpegAdvSearchAux_snd_le enc target 9 0 (1/10) (19/20) none
    omega
  · intro m
    exact jpegSearchAux_fuel enc target (1/100) 7 m _ _ _ hwidth
  · intro m
    exact jpegAdvSearchAux_fuel enc target 9 m 0 _ _ _ (by omega)

/-- Claim C1 (corrected; counterexample below).  Quality search correctness:
for every encode function, a recorded best probe of either loop always has an
encoding at most the target (so whenever the search ends with a recorded best,
the returned blob meets the target), and the simple compressor's selection
never returns a quality whose encoding misses the target; moreover, for every
WEAKLY MONOTONE encode function — the assumption the spec itself documents —
whenever some quality in `[0.1, 0.95]` meets the target, the simple selection
returns some quality (never throwing) and the advanced search never reaches
the progressive fallback and only returns qualities whose encodings meet the
target. -/
theorem quality_search_correct (enc : ℚ → ℕ) (target : ℕ) :
    (∀ q, (jpegSearchAux enc target (1/100) 7 (1/10) (19/20) none).1 = some q →
      enc q ≤ target) ∧
    (∀ q, (jpegAdvSearchAux enc target 9 0 (1/10) (19/20) none).1 = some q →
      enc q ≤ target) ∧
    (∀ q, jpegCompressSearch enc target = some q → enc q ≤ target) ∧
    ((∀ a b : ℚ, a ≤ b → enc a ≤ enc b) →
      (∃ q0, 1/10 ≤ q0 ∧ q0 ≤ 19/20 ∧ enc q0 ≤ target) →
      jpegCompressSearch enc target ≠ none ∧
      (∀ pf, jpegAdvFindOptimalQuality enc target pf ≠ .progressive) ∧
      (∀ pf q, jpegAdvFindOptimalQuality enc target pf = .atQuality q →
        enc q ≤ target)) := by
  have hsome := jpegSearchAux_fst_some enc target (1/100) 7 (1/10) (19/20) none
    (fun q h => Option.noConfusion h)
  have hasome := jpegAdvSearchAux_fst_some enc target 9 0 (1/10) (19/20) none
    (fun q h => Option.noConfusion h)
  have hsearch : ∀ q, jpegCompressSearch enc target = some q → enc q ≤ target := by
    intro q hq
    unfold jpegCompressSearch at hq
    rcases haux : (jpegSearchAux enc target (1/100) 7 (1/10) (19/20) none).1 with _ | q'
    · rw [haux] at hq
      dsimp only at hq
      split at hq
      · rename_i hmin
        cases hq
        exact hmin
      · exact Option.noConfusion hq
    · rw [haux] at hq
      dsimp only at hq
      cases hq
      exact hsome _ haux
  refine ⟨hsome, hasome, hsearch, ?_⟩
  intro hmono hex
  obtain ⟨q0, hq1, hq2, hq3⟩ := hex
  have hmin : enc (1/10) ≤ target := le_trans (hmono _ _ hq1) hq3
  refine ⟨?_, ?_, ?_⟩
  · unfold jpegCompressSearch
    rcases haux : (jpegSearchAux enc target (1/100) 7 (1/10) (19/20) none).1 with _ | q'
    · dsimp only
      rw [if_pos hmin]
      exact fun h => Option.noConfusion h
    · dsimp only
      exact fun h => Option.noConfusion h
  · intro pf
    unfold jpegAdvFindOptimalQuality
    by_cases hmax : enc (19/20) ≤ target
    · rw [if_pos hmax]
      exact fun h => JpegAdvResult.noConfusion h
    · rw [if_neg hmax]
      rcases haux : (jpegAdvSearchAux enc target 9 0 (1/10) (19/20) none).1 with _ | q'
      · dsimp only
        rw [if_pos hmin]
        exact fun h => JpegAdvResult.noConfusion h
      · dsimp only
        exact fun h => JpegAdvResult.noConfusion h
  · intro pf q hq
    unfold jpegAdvFindOptimalQuality at hq
    by_cases hmax : enc (19/20) ≤ target
    · rw [if_pos hmax] at hq
      cases hq
      exact hmax
    · rw [if_neg hmax] at hq
      rcases haux : (jpegAdvSearchAux enc target 9 0 (1/10) (19/20) none).1 with _ | q'
      · rw [haux] at hq
        dsimp only at hq
        rw [if_pos hmin] at hq
        cases hq
        exact hmin
      · rw [haux] at hq
        dsimp only at hq
        cases hq
        exact hasome _ haux

/-- Witness for the amended claim C1 at a concrete input: for the weakly
monotone `encMonoW` and target 0 the binary search records the best probe
`319/640 ≈ 0.498`, its encoding meets the target, and the selection does not
throw. -/
theorem quality_search_correct_witness :
    encMonoW (319/640) ≤ 0 ∧ jpegCompressSearch encMonoW 0 ≠ none := by
  have haux : (jpegSearchAux encMonoW 0 (1/100) 7 (1/10) (19/20) none).1 =
      some (319/640) := by
    rw [jpegSearchAux_fst_step_neg _ _ _ _ _ _ (21/40) _ (by norm_num) (by norm_num)
          (by norm_num [encMonoW]),
        jpegSearchAux_fst_step_pos _ _ _ _ _ _ (5/16) _ (by norm_num) (by norm_num)
          (by norm_num [encMonoW]),
        jpegSearchAux_fst_step_pos _ _ _ _ _ _ (67/160) _ (by norm_num) (by norm_num)
          (by norm_num [encMonoW]),
        jpegSearchAux_fst_step_pos _ _ _ _ _ _ (151/320) _ (by norm_num) (by norm_num)
          (by norm_num [encMonoW]),
        jpegSearchAux_fst_step_pos _ _ _ _ _ _ (319/640) _ (by norm_num) (by norm_num)
          (by norm_num [encMonoW]),
        jpegSearchAux_fst_step_neg _ _ _ _ _ _ (131/256) _ (by norm_num) (by norm_num)
          (by norm_num [encMonoW]),
        jpegSearchAux_fst_step_neg _ _ _ _ _ _ (1293/2560) _ (by norm_num) (by norm_num)
          (by norm_num [encMonoW])]
    rfl
  have h := quality_search_correct encMonoW 0
  refine ⟨h.1 _ haux, (h.2.2.2 ?_ ?_).1⟩
  · intro a b hab
    simp only [encMonoW]
    split_ifs with ha hb hc
    · exact le_refl 0
    · exact Nat.zero_le 5
    · exact absurd (hab.trans hc) ha
    · exact le_refl 5
  · exact ⟨1/2, by norm_num, by norm_num, by norm_num [encMonoW]⟩

/-- Counterexample to claim C1 as stated (for every encode function): with the
non-monotone `encBad` and target 0, quality `0.2` lies in `[0.1, 0.95]` and
meets the target, yet the simple compressor's selection throws (`none`) and
the advanced search returns quality `0.1` whose encoding exceeds the
target — the probed midpoints never hit `0.2` and both fallbacks use `0.1`. -/
theorem quality_search_counterexample :
    ((1:ℚ)/10 ≤ 1/5 ∧ (1:ℚ)/5 ≤ 19/20 ∧ encBad (1/5) ≤ 0) ∧
    jpegCompressSearch encBad 0 = none ∧
    jpegAdvFindOptimalQuality encBad 0 true = .atQuality (1/10) ∧
    ¬ encBad (1/10) ≤ 0 := by
  have haux : (jpegSearchAux encBad 0 (1/100) 7 (1/10) (19/20) none).1 = none := by
    rw [jpegSearchAux_fst_step_neg _ _ _ _ _ _ (21/40) _ (by norm_num) (by norm_num)
          (by norm_num [encBad]),
        jpegSearchAux_fst_step_neg _ _ _ _ _ _ (5/16) _ (by norm_num) (by norm_num)
          (by norm_num [encBad]),
        jpegSearchAux_fst_step_neg _ _ _ _ _ _ (33/160) _ (by norm_num) (by norm_num)
          (by norm_num [encBad]),
        jpegSearchAux_fst_step_neg _ _ _ _ _ _ (49/320) _ (by norm_num) (by norm_num)
          (by norm_num [encBad]),
        jpegSearchAux_fst_step_neg _ _ _ _ _ _ (81/640) _ (by norm_num) (by norm_num)
          (by norm_num [encBad]),
        jpegSearchAux_fst_step_neg _ _ _ _ _ _ (145/1280) _ (by norm_num) (by norm_num)
          (by norm_num [encBad]),
        jpegSearchAux_fst_step_neg _ _ _ _ _ _ (273/2560) _ (by norm_num) (by norm_num)
          (by norm_num [encBad])]
    rfl
  have hadv : (jpegAdvSearchAux encBad 0 9 0 (1/10) (19/20) none).1 = none := by
    rw [jpegAdvSearchAux_fst_step_none_neg _ _ _ _ _ _ (21/40) (by norm_num) (by norm_num)
          (by norm_num) (by norm_num [encBad]),
        jpegAdvSearchAux_fst_step_none_neg _ _ _ _ _ _ (5/16) (by norm_num) (by norm_num)
          (by norm_num) (by norm_num [encBad]),
        jpegAdvSearchAux_fst_step_none_neg _ _ _ _ _ _ (33/160) (by norm_num) (by norm_num)
          (by norm_num) (by norm_num [encBad]),
        jpegAdvSearchAux_fst_step_none_neg _ _ _ _ _ _ (49/320) (by norm_num) (by norm_num)
          (by norm_num) (by norm_num [encBad]),
        jpegAdvSearchAux_fst_step_none_neg _ _ _ _ _ _ (81/640) (by norm_num) (by norm_num)
          (by norm_num) (by norm_num [encBad]),
        jpegAdvSearchAux_fst_step_none_neg _ _ _ _ _ _ (145/1280) (by norm_num) (by norm_num)
          (by norm_num) (by norm_num [encBad]),
        jpegAdvSearchAux_fst_step_none_neg _ _ _ _ _ _ (273/2560) (by norm_num) (by norm_num)
          (by norm_num) (by norm_num [encBad]),
        jpegAdvSearchAux_fst_stop _ _ _ _ _ _ _ (by norm_num)]
  refine ⟨⟨by norm_num, by norm_num, by norm_num [encBad]⟩, ?_, ?_, by norm_num [encBad]⟩
  · unfold jpegCompressSearch
    rw [haux]
    dsimp only
    rw [if_neg (by norm_num [encBad])]
  · unfold jpegAdvFindOptimalQuality
    rw [if_neg (by norm_num [encBad]), hadv]
    dsimp only
    rw [if_neg (by norm_num [encBad])]
    rfl

/-- Claim C3 (corrected; counterexample below).
TargetUnreachable: when no quality in `[0.1, 0.95]` produces an encoding at or
below the target, the ADVANCED search still returns a result: the
minimum-quality encoding (when the worker-based progressive attempt fails),
with the target-met condition false; the SIMPLE JPEG compressor instead
throws `"Could not compress image to target size"` (`none`) rather than
returning a best-effort result. -/
theorem target_unreachable_behavior (enc : ℚ → ℕ) (target : ℕ)
    (hall : ∀ q, 1/10 ≤ q → q ≤ 19/20 → target < enc q) :
    jpegAdvFindOptimalQuality enc target true = .atQuality (1/10) ∧
    target < enc (1/10) ∧
    jpegCompressSearch enc target = none := by
  have hmin : target < enc (1/10) := hall _ (le_refl _) (by norm_num)
  have hmax : target < enc (19/20) := hall _ (by norm_num) (le_refl _)
  have hsimple : (jpegSearchAux enc target (1/100) 7 (1/10) (19/20) none).1 = none :=
    jpegSearchAux_fst_none enc target (1/100) 7 (1/10) (19/20) (by norm_num) hall
  have hadv : (jpegAdvSearchAux enc target 9 0 (1/10) (19/20) none).1 = none :=
    jpegAdvSearchAux_fst_none enc target 9 0 (1/10) (19/20) (by norm_num) hall
  refine ⟨?_, hmin, ?_⟩
  · unfold jpegAdvFindOptimalQuality
    rw [if_neg (not_le.mpr hmax), hadv]
    dsimp only
    rw [if_neg (not_le.mpr hmin)]
    rfl
  · unfold jpegCompressSearch
    rw [hsimple]
    dsimp only
    rw [if_neg (not_le.mpr hmin)]

/-- Counterexample to claim C3 as stated: with an encoder producing 1 byte at
every quality and target 0, no quality in the search range meets the target,
and the simple JPEG compressor raises ("Could not compress image to target
size", modelled as `none`) instead of returning the minimum-quality encoding
as a result. -/
theorem target_unreachable_counterexample :
    (∀ q : ℚ, 1/10 ≤ q → q ≤ 19/20 → 0 < (fun _ => (1:ℕ)) q) ∧
    jpegCompressSearch (fun _ => 1) 0 = none := by
  refine ⟨fun q _ _ => Nat.one_pos, ?_⟩
  have hs : (jpegSearchAux (fun _ => 1) 0 (1/100) 7 (1/10) (19/20) none).1 = none :=
    jpegSearchAux_fst_none _ _ _ 7 _ _ (by norm_num) (fun q _ _ => Nat.one_pos)
  unfold jpegCompressSearch
  rw [hs]
  dsimp only
  rw [if_neg (by norm_num)]

/-- Witness for the amended claim C3 at a concrete input: an encoder producing
1 byte at every quality with target 0 is unreachable; the advanced search
returns quality 0.1 with the target missed, and the simple selection throws. -/
theorem target_unreachable_behavior_witness :
    jpegAdvFindOptimalQuality (fun _ => 1) 0 true = .atQuality (1/10) ∧
    (0:ℕ) < 1 ∧
    jpegCompressSearch (fun _ => 1) 0 = none := by
  have h := target_unreachable_behavior (fun _ => 1) 0 (fun q _ _ => Nat.one_pos)
  exact ⟨h.1, h.2.1, h.2.2⟩

/-- A tile index below `ceil(w / T)` has its origin strictly inside the image. -/
lemma tile_origin_lt {w T tx : ℕ} (hT : 0 < T) (htx : tx < ceilDivNat w T) :
    tx * T < w := by
  have h1 : tx + 1 ≤ (w + T - 1) / T := htx
  have h2 : (tx + 1) * T ≤ w + T - 1 := (Nat.le_div_iff_mul_le hT).mp h1
  have h3 : tx * T + T ≤ w + T - 1 := by
    calc tx * T + T = (tx + 1) * T := by ring
      _ ≤ w + T - 1 := h2
  set A := tx * T
  omega

/-- One-dimensional tile-interval characterization: a coordinate lies in the
half-open interval of tile `tx` exactly when it is inside the image and its
tile index is `tx`. -/
lemma tile_interval_iff {w T tx px : ℕ} (hT : 0 < T) (htx : tx < ceilDivNat w T) :
    (tx * T ≤ px ∧ px < tx * T + min T (w - tx * T)) ↔ (px < w ∧ px / T = tx) := by
  have hlt : tx * T < w := tile_origin_lt hT htx
  constructor
  · rintro ⟨h1, h2⟩
    have hpw : px < w := by
      have hminr : min T (w - tx * T) ≤ w - tx * T := min_le_right _ _
      set A := tx * T
      omega
    refine ⟨hpw, ?_⟩
    have hup : px < tx * T + T := by
      have hminl : min T (w - tx * T) ≤ T := min_le_left _ _
      set A := tx * T
      omega
    exact Nat.div_eq_of_lt_le h1 (by rw [Nat.succ_mul]; exact hup)
  · rintro ⟨hpw, hdv⟩
    subst hdv
    have h1 : px / T * T ≤ px := Nat.div_mul_le_self px T
    have hdm : T * (px / T) + px % T = px := Nat.div_add_mod px T
    have hdm' : px / T * T + px % T = px := by rw [Nat.mul_comm T (px / T)] at hdm; exact hdm
    have hmlt : px % T < T := Nat.mod_lt px hT
    refine ⟨h1, ?_⟩
    have hmin : px - px / T * T < min T (w - px / T * T) := by
      rw [lt_min_iff]
      constructor
      · set A := px / T * T
        set M := px % T
        omega
      · set A := px / T * T
        omega
    set A := px / T * T
    set m := min T (w - A)
    omega

/-- The tile index of an in-bounds coordinate is below the tile count. -/
lemma div_lt_ceilDivNat {w T px : ℕ} (hT : 0 < T) (hpw : px < w) :
    px / T < ceilDivNat w T := by
  have h1 : px / T ≤ (w - 1) / T := Nat.div_le_div_right (by omega)
  have h2 : ceilDivNat w T = (w - 1) / T + 1 := by
    unfold ceilDivNat
    have hw1 : w + T - 1 = (w - 1) + T := by omega
    rw [hw1, Nat.add_div_right _ hT]
  omega

/-- Membership in `tileIndices` is exactly the componentwise tile-count bound. -/
lemma mem_tileIndices {w h T : ℕ} {p : ℕ × ℕ} :
    p ∈ tileIndices w h T ↔ p.1 < ceilDivNat w T ∧ p.2 < ceilDivNat h T := by
  rcases p with ⟨tx, ty⟩
  simp only [tileIndices, List.mem_flatMap, List.mem_map, List.mem_range]
  constructor
  · rintro ⟨ky, hky, kx, hkx, heq⟩
    cases heq
    exact ⟨hkx, hky⟩
  · rintro ⟨h1, h2⟩
    exact ⟨ty, h2, tx, h1, rfl⟩

/-- Membership in a tile rectangle of the partition characterized by tile
indices. -/
lemma inRect_tile_iff {w h T tx ty px py : ℕ} (hT : 0 < T)
    (htx : tx < ceilDivNat w T) (hty : ty < ceilDivNat h T) :
    inRect (tileRect w h T tx ty) px py = true ↔
      (px < w ∧ px / T = tx) ∧ (py < h ∧ py / T = ty) := by
  unfold inRect tileRect
  rw [decide_eq_true_eq]
  dsimp only
  constructor
  · rintro ⟨h1, h2, h3, h4⟩
    exact ⟨(tile_interval_iff hT htx).mp ⟨h1, h2⟩, (tile_interval_iff hT hty).mp ⟨h3, h4⟩⟩
  · rintro ⟨hx, hy⟩
    have hx2 := (tile_interval_iff hT htx).mpr hx
    have hy2 := (tile_interval_iff hT hty).mpr hy
    exact ⟨hx2.1, hx2.2, hy2.1, hy2.2⟩

/-- The tile of an in-bounds pixel: membership and coverage. -/
lemma tile_cover {w h T : ℕ} (hT : 0 < T) (px py : ℕ) (hpw : px < w) (hph : py < h) :
    (px / T, py / T) ∈ tileIndices w h T ∧
      inRect (tileRect w h T (px / T) (py / T)) px py = true := by
  have h1 := div_lt_ceilDivNat hT hpw
  have h2 := div_lt_ceilDivNat (w := h) hT hph
  refine ⟨mem_tileIndices.mpr ⟨h1, h2⟩, ?_⟩
  rw [inRect_tile_iff hT h1 h2]
  exact ⟨⟨hpw, rfl⟩, ⟨hph, rfl⟩⟩

/-- Writing tiles that all miss a pixel leaves that pixel untouched. -/
lemma reassemble_eq_init {α : Type} (px py : ℕ) :
    ∀ (ts : List (TileData α)) (init : ℕ → ℕ → α),
      (∀ t ∈ ts, inRect t.rect px py = false) →
      reassemble ts init px py = init px py := by
  intro ts
  induction ts with
  | nil => intro init _; rfl
  | cons t ts ih =>
    intro init hall
    have hstep : reassemble (t :: ts) init = reassemble ts (writeTile t init) := rfl
    rw [hstep, ih _ (fun u hu => hall u (List.mem_cons_of_mem _ hu))]
    unfold writeTile
    rw [hall t (List.mem_cons_self t ts)]
    simp

/-- If some tile of the list covers a pixel, and every covering tile of the
list writes the value `buf` has there, reassembly writes exactly that value,
whatever the initial buffer and the list order. -/
lemma reassemble_eq_buf {α : Type} (buf : ℕ → ℕ → α) (px py : ℕ) :
    ∀ (ts : List (TileData α)) (init : ℕ → ℕ → α),
      (∀ t ∈ ts, inRect t.rect px py = true →
        t.dat (px - t.rect.x) (py - t.rect.y) = buf px py) →
      (∃ t ∈ ts, inRect t.rect px py = true) →
      reassemble ts init px py = buf px py := by
  intro ts
  induction ts with
  | nil =>
    intro init _ hex
    rcases hex with ⟨t, ht, _⟩
    exact absurd ht (List.not_mem_nil t)
  | cons t ts ih =>
    intro init hall hex
    have hstep : reassemble (t :: ts) init = reassemble ts (writeTile t init) := rfl
    rw [hstep]
    by_cases hc : ∃ u ∈ ts, inRect u.rect px py = true
    · exact ih _ (fun u hu hcov => hall u (List.mem_cons_of_mem _ hu) hcov) hc
    · push_neg at hc
      have hnone : ∀ u ∈ ts, inRect u.rect px py = false :=
        fun u hu => by simpa using hc u hu
      rw [reassemble_eq_init px py ts _ hnone]
      have ht : inRect t.rect px py = true := by
        rcases hex with ⟨u, hu, hcov⟩
        rcases List.mem_cons.mp hu with rfl | hmem
        · exact hcov
        · exact absurd hcov (hc u hmem)
      unfold writeTile
      rw [ht, if_pos rfl]
      exact hall t (List.mem_cons_self t ts) ht

/-- Claim C5 (confirmed).  Tile partition is an exact disjoint cover and
reassembly is identity: for tile edge `T > 0`, the tiles with origins
`(tx*T, ty*T)` and sizes `(min T (w - tx*T), min T (h - ty*T))` are pairwise
disjoint, every in-bounds pixel lies in one of them, no tile reaches outside
the `w × h` buffer, and writing the extracted (untouched) tiles back over any
initial buffer — in any order — reproduces the original buffer pixel-exactly
on the whole image. -/
theorem tile_partition_exact {α : Type} (buf : ℕ → ℕ → α) (w h T : ℕ) (hT : 0 < T) :
    (∀ p q, p ∈ tileIndices w h T → q ∈ tileIndices w h T → p ≠ q →
      ∀ px py, ¬(inRect (tileRect w h T p.1 p.2) px py = true ∧
        inRect (tileRect w h T q.1 q.2) px py = true)) ∧
    (∀ px py, px < w → py < h →
      ∃ p ∈ tileIndices w h T, inRect (tileRect w h T p.1 p.2) px py = true) ∧
    (∀ p ∈ tileIndices w h T, ∀ px py,
      inRect (tileRect w h T p.1 p.2) px py = true → px < w ∧ py < h) ∧
    (∀ ts, List.Perm ts (tilePartition buf w h T) → ∀ init px py, px < w → py < h →
      reassemble ts init px py = buf px py) := by
  refine ⟨?_, ?_, ?_, ?_⟩
  · rintro ⟨tx1, ty1⟩ ⟨tx2, ty2⟩ hp hq hne px py ⟨h1, h2⟩
    rw [mem_tileIndices] at hp hq
    rw [inRect_tile_iff hT hp.1 hp.2] at h1
    rw [inRect_tile_iff hT hq.1 hq.2] at h2
    apply hne
    have e1 : tx1 = tx2 := h1.1.2.symm.trans h2.1.2
    have e2 : ty1 = ty2 := h1.2.2.symm.trans h2.2.2
    rw [e1, e2]
  · intro px py hpw hph
    obtain ⟨hmem, hcov⟩ := tile_cover hT px py hpw hph
    exact ⟨(px / T, py / T), hmem, hcov⟩
  · rintro ⟨tx, ty⟩ hp px py hin
    rw [mem_tileIndices] at hp
    rw [inRect_tile_iff hT hp.1 hp.2] at hin
    exact ⟨hin.1.1, hin.2.1⟩
  · intro ts hperm init px py hpw hph
    apply reassemble_eq_buf
    · intro t ht hcov
      have ht2 : t ∈ tilePartition buf w h T := hperm.mem_iff.mp ht
      rcases List.mem_map.mp ht2 with ⟨p, hpmem, rfl⟩
      have hbounds : (tileRect w h T p.1 p.2).x ≤ px ∧ (tileRect w h T p.1 p.2).y ≤ py := by
        unfold extractTile at hcov
        unfold inRect at hcov
        rw [decide_eq_true_eq] at hcov
        exact ⟨hcov.1, hcov.2.2.1⟩
      show buf ((tileRect w h T p.1 p.2).x + (px - (tileRect w h T p.1 p.2).x))
          ((tileRect w h T p.1 p.2).y + (py - (tileRect w h T p.1 p.2).y)) = buf px py
      rw [Nat.add_sub_cancel' hbounds.1, Nat.add_sub_cancel' hbounds.2]
    · obtain ⟨hmem, hcov⟩ := tile_cover hT px py hpw hph
      refine ⟨extractTile buf (tileRect w h T (px / T) (py / T)), ?_, hcov⟩
      apply hperm.mem_iff.mpr
      exact List.mem_map.mpr ⟨(px / T, py / T), hmem, rfl⟩

/-- Witness for claim C5 at concrete inputs: partitioning the 3×3 buffer
`orig3` with tile edge 2 and writing the tiles back over a garbage buffer
reproduces the original value at pixel `(2, 2)`. -/
theorem tile_partition_exact_witness :
    0 < 2 ∧ reassemble (tilePartition orig3 3 3 2) (fun _ _ => 99) 2 2 = orig3 2 2 :=
  ⟨by norm_num,
   (tile_partition_exact orig3 3 3 2 (by norm_num)).2.2.2 _ (List.Perm.refl _)
     (fun _ _ => 99) 2 2 (by norm_num) (by norm_num)⟩

/-- Claim C6 (corrected; counterexample below).  Mixed/adaptive quantization:
for every pixel of the `w × h` buffer, (i) on INTERIOR pixels (both
coordinates at least 1 and at least 2 away from the far edges is not required
— precisely `1 ≤ x`, `x+1 < w`, `1 ≤ y`, `y+1 < h`) with alpha at least 128,
the code's edge flag agrees with the claim's 4-neighbor max summed channel
delta `> 100`; (ii) border pixels and pixels with alpha below 128 are never
flagged; (iii) every pixel with nonzero alpha has R, G, B floor-quantized with
step 2 when flagged and step 6 otherwise and its alpha binarized at 128;
(iv) fully transparent pixels are left untouched; and (v) the alpha channel of
every pixel ends up binarized at threshold 128. -/
theorem adaptive_quantization_behavior (data : ℕ → ℕ → Pix) (w h x y : ℕ)
    (hx : x < w) (hy : y < h) :
    (1 ≤ x → x + 1 < w → 1 ≤ y → y + 1 < h → 128 ≤ (data x y).a →
      adaptiveEdgeMap data w h x y = specEdgeFlag data w h x y) ∧
    ((x = 0 ∨ x + 1 = w ∨ y = 0 ∨ y + 1 = h ∨ (data x y).a < 128) →
      adaptiveEdgeMap data w h x y = false) ∧
    ((data x y).a ≠ 0 →
      reduceColorsAdaptive data w h x y =
        { r := (data x y).r / (if adaptiveEdgeMap data w h x y then 2 else 6) *
            (if adaptiveEdgeMap data w h x y then 2 else 6),
          g := (data x y).g / (if adaptiveEdgeMap data w h x y then 2 else 6) *
            (if adaptiveEdgeMap data w h x y then 2 else 6),
          b := (data x y).b / (if adaptiveEdgeMap data w h x y then 2 else 6) *
            (if adaptiveEdgeMap data w h x y then 2 else 6),
          a := if (data x y).a < 128 then 0 else 255 }) ∧
    ((data x y).a = 0 → reduceColorsAdaptive data w h x y = data x y) ∧
    (reduceColorsAdaptive data w h x y).a =
      (if (data x y).a < 128 then 0 else 255) := by
  refine ⟨?_, ?_, ?_, ?_, ?_⟩
  · intro h1 h2 h3 h4 ha
    unfold adaptiveEdgeMap specEdgeFlag
    rw [if_pos ⟨h1, h2, h3, h4⟩, if_neg (not_lt.mpr ha), if_pos h1, if_pos h2,
      if_pos h3, if_pos h4]
    dsimp only
    simp only [List.cons_append, List.nil_append, List.foldr, Nat.max_zero]
    rw [decide_eq_decide, max_assoc]
  · intro hcase
    unfold adaptiveEdgeMap
    by_cases hguard : 1 ≤ x ∧ x + 1 < w ∧ 1 ≤ y ∧ y + 1 < h
    · rw [if_pos hguard]
      have ha : (data x y).a < 128 := by
        rcases hcase with hcc | hcc | hcc | hcc | hcc
        · exact absurd hguard.1 (by omega)
        · exact absurd hguard.2.1 (by omega)
        · exact absurd hguard.2.2.1 (by omega)
        · exact absurd hguard.2.2.2 (by omega)
        · exact hcc
      rw [if_pos ha]
    · rw [if_neg hguard]
  · intro ha
    unfold reduceColorsAdaptive
    rw [if_pos ⟨hx, hy⟩, if_neg ha]
  · intro ha
    unfold reduceColorsAdaptive
    rw [if_pos ⟨hx, hy⟩, if_pos ha]
  · by_cases ha : (data x y).a = 0
    · unfold reduceColorsAdaptive
      rw [if_pos ⟨hx, hy⟩, if_pos ha, ha, if_pos (by norm_num)]
    · unfold reduceColorsAdaptive
      rw [if_pos ⟨hx, hy⟩, if_neg ha]

/-- Counterexample to claim C6 as stated: in a 2×1 image with an opaque white
pixel at `(0, 0)` next to an opaque black pixel, the claim's edge condition
holds at `(0, 0)` (its 4-neighbor max summed channel delta is 765 > 100) and
the pixel is non-transparent, yet the edge-detection loop never visits border
pixels, so the code quantizes it with step 6 (R becomes 252) instead of the
step 2 the claim requires (R would be 254). -/
theorem adaptive_quantization_counterexample :
    128 ≤ (dataBorder 0 0).a ∧
    specEdgeFlag dataBorder 2 1 0 0 = true ∧
    reduceColorsAdaptive dataBorder 2 1 0 0 =
      { r := 252, g := 252, b := 252, a := 255 } ∧
    (dataBorder 0 0).r / 2 * 2 = 254 ∧
    (reduceColorsAdaptive dataBorder 2 1 0 0).r ≠ (dataBorder 0 0).r / 2 * 2 := by
  decide

/-- Witness for the amended claim C6 at a concrete input: at the interior,
fully opaque white pixel `(1, 1)` of a 3×3 buffer the code's edge flag agrees
with the claim's 4-neighbor delta condition, and the pixel is quantized with
step 2. -/
theorem adaptive_quantization_witness :
    adaptiveEdgeMap dataCenter 3 3 1 1 = specEdgeFlag dataCenter 3 3 1 1 ∧
    reduceColorsAdaptive dataCenter 3 3 1 1 =
      { r := 254, g := 254, b := 254, a := 255 } :=
  ⟨(adaptive_quantization_behavior dataCenter 3 3 1 1 (by norm_num) (by norm_num)).1
      (by norm_num) (by norm_num) (by norm_num) (by norm_num) (by decide),
   by decide⟩
